import Mathlib

/-!
Scheduler clock of `arch/x86/include/asm/timer.h`.

A shallow embedding of the cycle-to-nanosecond conversion (`cycles_2_ns`), the
scheduler clock entry point (`__sched_clock`) and the per-CPU calibration store
(`struct cyc2ns`) together with the properties stated for them.

Machine integers are natural numbers; every place where the C code reduces a
value to 64 (or 32) bits carries an explicit `% 2 ^ 64` (or `% 2 ^ 32`).
-/

namespace Timer

/-- The `struct cyc2ns_data` of the header: `u32 cyc2ns_mul`, `u32 cyc2ns_shift`,
`u64 cyc2ns_offset`. -/
structure cyc2ns_data where
  cyc2ns_mul : Nat
  cyc2ns_shift : Nat
  cyc2ns_offset : Nat
  deriving DecidableEq, Repr

/-- The `struct cyc2ns` of the header: `struct cyc2ns_data data[2]` (here the two
entries `data0`, `data1`) and `seqcount_t seq` (an unsigned 32-bit counter). -/
structure cyc2ns where
  data0 : cyc2ns_data
  data1 : cyc2ns_data
  seq : Nat
  deriving DecidableEq, Repr

/-- The array access `c.data[idx]` for `idx` in `{0, 1}`. -/
def cyc2ns.data (c : cyc2ns) (idx : Nat) : cyc2ns_data :=
  if idx = 0 then c.data0 else c.data1

/-- The array store `c.data[idx] = d` for `idx` in `{0, 1}`. -/
def cyc2ns.setData (c : cyc2ns) (idx : Nat) (d : cyc2ns_data) : cyc2ns :=
  if idx = 0 then { c with data0 := d } else { c with data1 := d }

/-- The constant `CYC2NS_SCALE_FACTOR` of the header, defined as 10. -/
def CYC2NS_SCALE_FACTOR : Nat := 10

/-- Modelled from the spec: `mul_u64_u32_shr` of `linux/math64.h`, which is not
among the sources. The spec (4.1) asks for a multiply that does not truncate: the
product of the 64-bit cycle count and the 32-bit multiplier is formed at full
(96-bit) precision, shifted right, and the result is brought back to 64 bits. -/
def mul_u64_u32_shr (a mul shift : Nat) : Nat :=
  ((a * mul) >>> shift) % 2 ^ 64

/-- The body of `cycles_2_ns(cyc)`. `data` is the record that
`cyc2ns_read_begin(&data)` filled in; `ns` is an `unsigned long long`, so the
accumulation `ns += ...` is reduced modulo `2 ^ 64`. -/
def cycles_2_ns (data : cyc2ns_data) (cyc : Nat) : Nat :=
  let ns := data.cyc2ns_offset
  let ns := (ns + mul_u64_u32_shr cyc data.cyc2ns_mul data.cyc2ns_shift) % 2 ^ 64
  ns

/-- The body of `__sched_clock()`. `use_tsc` is the outcome of
`static_branch_likely(&__use_tsc)`, `rdtsc` the value the hardware counter read
returns, `data` the record `cyc2ns_read_begin` fills in; `jiffies_64`,
`INITIAL_JIFFIES` and `HZ` are declared outside the header and are taken as
parameters. The fallback expression is evaluated in `u64`: the subtraction and
the product wrap modulo `2 ^ 64`, the quotient `1000000000 / HZ` truncates. -/
def __sched_clock (use_tsc : Bool) (rdtsc : Nat) (data : cyc2ns_data)
    (jiffies_64 INITIAL_JIFFIES HZ : Nat) : Nat :=
  if use_tsc then
    let tsc_now := rdtsc
    cycles_2_ns data tsc_now
  else
    (((jiffies_64 + 2 ^ 64 - INITIAL_JIFFIES) % 2 ^ 64) * (1000000000 / HZ)) % 2 ^ 64

/-- Modelled from the spec: one pass of the retry loop of `cyc2ns_read_begin`
(4.2), which is not among the sources, with the store as it is seen at each of
its five accesses: the counter is read from `s1`, the three fields of
the candidate entry `data[seq & 1]` from `s2`, `s3`, `s4`, and the counter is
read again from `s5`. The pass fails (`none`) when the counter changed or is odd. -/
def read_once (s1 s2 s3 s4 s5 : cyc2ns) : Option cyc2ns_data :=
  let seq := s1.seq
  let idx := seq % 2
  let offset := (s2.data idx).cyc2ns_offset
  let mul := (s3.data idx).cyc2ns_mul
  let shift := (s4.data idx).cyc2ns_shift
  if s5.seq ≠ seq ∨ seq % 2 = 1 then none
  else some { cyc2ns_mul := mul, cyc2ns_shift := shift, cyc2ns_offset := offset }

/-- Modelled from the spec: `cyc2ns_read_begin`, only declared in the header
and defined elsewhere. The spec (4.2) describes it as the retry loop
"read counter, copy candidate slot, re-read counter, if counter changed or is
odd, retry", the slot being indexed by the low bit of the counter. This is the
uninterrupted run against the store `c`; `fuel` bounds the number of passes. -/
def cyc2ns_read_begin : Nat → cyc2ns → Option cyc2ns_data
  | 0, _ => none
  | fuel + 1, c =>
    match read_once c c c c c with
    | some d => some d
    | none => cyc2ns_read_begin fuel c

/-- The increment of the sequence counter, an unsigned 32-bit `seqcount_t`. -/
def seq_inc (c : cyc2ns) : cyc2ns :=
  { c with seq := (c.seq + 1) % 2 ^ 32 }

/-- Modelled from the spec: the writer `publish(new_record)` of the calibration
store, which is not among the sources, cut at its individual stores. The spec
(4.2): "Increments the sequence counter (to odd), writes new_record into the
slot not currently selected, increments the sequence counter again (to even,
now selecting the new slot)", the selected slot being the one indexed by the
low bit of the counter at the time of the write. `publish_upto c r k` is the
store after the first `k` stores of the writer: the increment, the three fields
of the record, the second increment. -/
def publish_upto (c : cyc2ns) (r : cyc2ns_data) : Nat → cyc2ns
  | 0 => c
  | 1 => seq_inc c
  | 2 =>
    let c1 := seq_inc c
    let idx := 1 - c1.seq % 2
    c1.setData idx { c1.data idx with cyc2ns_offset := r.cyc2ns_offset }
  | 3 =>
    let c1 := seq_inc c
    let idx := 1 - c1.seq % 2
    c1.setData idx { c1.data idx with cyc2ns_offset := r.cyc2ns_offset,
                                      cyc2ns_mul := r.cyc2ns_mul }
  | 4 =>
    let c1 := seq_inc c
    let idx := 1 - c1.seq % 2
    c1.setData idx r
  | _ + 5 =>
    let c1 := seq_inc c
    let idx := 1 - c1.seq % 2
    seq_inc (c1.setData idx r)

/-- Modelled from the spec: `publish(new_record)` run to completion. -/
def publish (c : cyc2ns) (r : cyc2ns_data) : cyc2ns :=
  publish_upto c r 5

/-- The five instants of one pass of a reader, counted in stores of the writer
that have completed when the access is made. -/
structure ReadPass where
  t1 : Nat
  t2 : Nat
  t3 : Nat
  t4 : Nat
  t5 : Nat
  deriving DecidableEq, Repr

/-- The accesses of a pass happen in program order. -/
def ReadPass.ordered (p : ReadPass) : Prop :=
  p.t1 ≤ p.t2 ∧ p.t2 ≤ p.t3 ∧ p.t3 ≤ p.t4 ∧ p.t4 ≤ p.t5

instance (p : ReadPass) : Decidable p.ordered := by
  unfold ReadPass.ordered; infer_instance

/-- Modelled from the spec: the retry loop of `cyc2ns_read_begin` (4.2) when it
runs interleaved with one `publish c r`:
every pass reads the store at its own instants, the first pass that validates
gives the record returned. -/
def read_begin_interleaved (c : cyc2ns) (r : cyc2ns_data) : List ReadPass → Option cyc2ns_data
  | [] => none
  | p :: rest =>
    match read_once (publish_upto c r p.t1) (publish_upto c r p.t2) (publish_upto c r p.t3)
        (publish_upto c r p.t4) (publish_upto c r p.t5) with
    | some d => some d
    | none => read_begin_interleaved c r rest

/-- Modelled from the spec: steps 2 to 4 of `recalibrate(new_cycles_per_second,
at_cycle_count)` (4.3), which is not among the sources. `old` is the active
record read in step 1. The multiplier is the 32-bit field of the record; the
term subtracted in step 4 is formed by the same non-truncating multiply as the
conversion, and the subtraction is in `u64`. -/
def recalibrate_record (old : cyc2ns_data) (new_cycles_per_second at_cycle_count : Nat) :
    cyc2ns_data :=
  let ns_at_switch := cycles_2_ns old at_cycle_count
  let new_shift := CYC2NS_SCALE_FACTOR
  let new_multiplier :=
    (((1000000000 <<< new_shift) + new_cycles_per_second / 2) / new_cycles_per_second) % 2 ^ 32
  let new_offset :=
    (ns_at_switch + 2 ^ 64 - mul_u64_u32_shr at_cycle_count new_multiplier new_shift) % 2 ^ 64
  { cyc2ns_mul := new_multiplier, cyc2ns_shift := new_shift, cyc2ns_offset := new_offset }

/-- Modelled from the spec: `recalibrate` (4.3) as a whole: read the active
record, build the new one, publish it. -/
def recalibrate (fuel : Nat) (c : cyc2ns) (new_cycles_per_second at_cycle_count : Nat) :
    Option cyc2ns :=
  match cyc2ns_read_begin fuel c with
  | none => none
  | some old => some (publish c (recalibrate_record old new_cycles_per_second at_cycle_count))

/-! ## Arithmetic of the conversion -/

theorem mul_u64_u32_shr_eq (a mul shift : Nat) :
    mul_u64_u32_shr a mul shift = (a * mul / 2 ^ shift) % 2 ^ 64 := by
  unfold mul_u64_u32_shr
  rw [Nat.shiftRight_eq_div_pow]

theorem cycles_2_ns_mod (data : cyc2ns_data) (cyc : Nat) :
    cycles_2_ns data cyc
      = (data.cyc2ns_offset + cyc * data.cyc2ns_mul / 2 ^ data.cyc2ns_shift) % 2 ^ 64 := by
  unfold cycles_2_ns
  rw [mul_u64_u32_shr_eq]
  simp only [Nat.add_mod_mod]

theorem mul_u64_u32_shr_lt (a mul shift : Nat) : mul_u64_u32_shr a mul shift < 2 ^ 64 := by
  unfold mul_u64_u32_shr
  exact Nat.mod_lt _ (by norm_num)

theorem cycles_2_ns_lt (data : cyc2ns_data) (cyc : Nat) : cycles_2_ns data cyc < 2 ^ 64 := by
  rw [cycles_2_ns_mod]
  exact Nat.mod_lt _ (by norm_num)

theorem cycles_2_ns_nowrap (data : cyc2ns_data) (cyc : Nat)
    (h : data.cyc2ns_offset + cyc * data.cyc2ns_mul / 2 ^ data.cyc2ns_shift < 2 ^ 64) :
    cycles_2_ns data cyc
      = data.cyc2ns_offset + cyc * data.cyc2ns_mul / 2 ^ data.cyc2ns_shift := by
  rw [cycles_2_ns_mod, Nat.mod_eq_of_lt h]

theorem scaled_mono (mul shift : Nat) {c1 c2 : Nat} (h : c1 ≤ c2) :
    c1 * mul / 2 ^ shift ≤ c2 * mul / 2 ^ shift :=
  Nat.div_le_div_right (Nat.mul_le_mul_right mul h)

theorem u64_sub_add (a b : Nat) (ha : a < 2 ^ 64) (hb : b < 2 ^ 64) :
    ((a + 2 ^ 64 - b) % 2 ^ 64 + b) % 2 ^ 64 = a := by
  omega

/-- A record whose offset is the old value minus the new scaled term reproduces
the old value at the switch point, whatever the multiplier and shift. -/
theorem continuity_of_offset (ns m sh t0 : Nat) (hns : ns < 2 ^ 64) :
    cycles_2_ns
      { cyc2ns_mul := m, cyc2ns_shift := sh,
        cyc2ns_offset := (ns + 2 ^ 64 - mul_u64_u32_shr t0 m sh) % 2 ^ 64 } t0 = ns := by
  unfold cycles_2_ns
  exact u64_sub_add ns _ hns (mul_u64_u32_shr_lt t0 m sh)

/-! ## The conversion -/

/-- C1: for every record and every cycle count, `cycles_2_ns` is the offset plus
the full-precision product `cyc * mul` shifted right by `shift`, reduced modulo
`2 ^ 64`; the record `(512, 10, 0)` maps 2000000000 cycles to 1000000000 ns. -/
theorem cycles_2_ns_spec :
    (∀ (mul shift offset cyc : Nat),
      cycles_2_ns { cyc2ns_mul := mul, cyc2ns_shift := shift, cyc2ns_offset := offset } cyc
        = (offset + cyc * mul / 2 ^ shift) % 2 ^ 64) ∧
    cycles_2_ns { cyc2ns_mul := 512, cyc2ns_shift := 10, cyc2ns_offset := 0 } 2000000000
      = 1000000000 :=
  ⟨fun mul shift offset cyc => cycles_2_ns_mod ⟨mul, shift, offset⟩ cyc, by decide⟩

/-- C2: for every old record, switch point `t0` and new frequency `f2 > 0`, the
record built by the recalibration gives at `t0` exactly the value the old record
gives at `t0`. -/
theorem recalibrate_continuity (old : cyc2ns_data) (f2 t0 : Nat) (hf : 0 < f2) :
    cycles_2_ns (recalibrate_record old f2 t0) t0 = cycles_2_ns old t0 := by
  have _ := hf
  unfold recalibrate_record
  exact continuity_of_offset _ _ _ _ (cycles_2_ns_lt old t0)

/-- Witness of C2: the record `(512, 10, 0)` recalibrated to 3 GHz at cycle
2000000000 is `(341, 10, 333984375)` and still maps that cycle to 1000000000 ns. -/
theorem recalibrate_continuity_witness :
    0 < 3000000000 ∧
    recalibrate_record ⟨512, 10, 0⟩ 3000000000 2000000000 = ⟨341, 10, 333984375⟩ ∧
    cycles_2_ns ⟨512, 10, 0⟩ 2000000000 = 1000000000 ∧
    cycles_2_ns (recalibrate_record ⟨512, 10, 0⟩ 3000000000 2000000000) 2000000000
      = cycles_2_ns ⟨512, 10, 0⟩ 2000000000 :=
  ⟨by decide, by decide, by decide,
    recalibrate_continuity ⟨512, 10, 0⟩ 3000000000 2000000000 (by decide)⟩

/-- Counterexample to C3 as stated: with offset `2 ^ 64 - 1` the accumulation
wraps, so 2 cycles convert to 0 ns while 0 cycles convert to `2 ^ 64 - 1` ns. -/
theorem cycles_2_ns_not_monotone :
    (0 : Nat) < 2 ∧
    ¬ (cycles_2_ns { cyc2ns_mul := 512, cyc2ns_shift := 10, cyc2ns_offset := 2 ^ 64 - 1 } 2
        ≥ cycles_2_ns { cyc2ns_mul := 512, cyc2ns_shift := 10, cyc2ns_offset := 2 ^ 64 - 1 } 0) := by
  decide

/-- C3 (amended): for a fixed record and `cycles1 < cycles2` such that the
accumulation does not wrap between them, that is the unbounded values
`offset + floor(cycles * mul / 2 ^ shift)` at `cycles1` and at `cycles2` have
the same quotient by `2 ^ 64`, the value at `cycles2` is at least the value at
`cycles1`. -/
theorem cycles_2_ns_monotone (data : cyc2ns_data) (cycles1 cycles2 : Nat)
    (hlt : cycles1 < cycles2)
    (hwin : (data.cyc2ns_offset + cycles1 * data.cyc2ns_mul / 2 ^ data.cyc2ns_shift) / 2 ^ 64
        = (data.cyc2ns_offset + cycles2 * data.cyc2ns_mul / 2 ^ data.cyc2ns_shift) / 2 ^ 64) :
    cycles_2_ns data cycles2 ≥ cycles_2_ns data cycles1 := by
  rw [cycles_2_ns_mod, cycles_2_ns_mod]
  have hq := scaled_mono data.cyc2ns_mul data.cyc2ns_shift (Nat.le_of_lt hlt)
  generalize cycles1 * data.cyc2ns_mul / 2 ^ data.cyc2ns_shift = q1 at hq hwin ⊢
  generalize cycles2 * data.cyc2ns_mul / 2 ^ data.cyc2ns_shift = q2 at hq hwin ⊢
  omega

/-- Witness of C3 (amended): the record `(1024, 10, 2 ^ 64 - 1000000000)`, whose
offset is a wrapped negative one, at cycles 2000000000 and 3000000000: both
unbounded values lie in the second window and the values are 1000000000 and
2000000000 ns. -/
theorem cycles_2_ns_monotone_witness :
    (2000000000 : Nat) < 3000000000 ∧
    (2 ^ 64 - 1000000000 + 2000000000 * 1024 / 2 ^ 10) / 2 ^ 64 = 1 ∧
    (2 ^ 64 - 1000000000 + 3000000000 * 1024 / 2 ^ 10) / 2 ^ 64 = 1 ∧
    cycles_2_ns ⟨1024, 10, 2 ^ 64 - 1000000000⟩ 2000000000 = 1000000000 ∧
    cycles_2_ns ⟨1024, 10, 2 ^ 64 - 1000000000⟩ 3000000000 = 2000000000 ∧
    cycles_2_ns ⟨1024, 10, 2 ^ 64 - 1000000000⟩ 3000000000
      ≥ cycles_2_ns ⟨1024, 10, 2 ^ 64 - 1000000000⟩ 2000000000 :=
  ⟨by decide, by decide, by decide, by decide, by decide,
    cycles_2_ns_monotone ⟨1024, 10, 2 ^ 64 - 1000000000⟩ 2000000000 3000000000
      (by decide) (by decide)⟩

/-! ## The scheduler clock -/

/-- C4: on the fallback path, for every tick count, initial tick value and tick
rate `HZ > 0`, `__sched_clock` returns `(jiffies_64 - INITIAL_JIFFIES) *
(1000000000 / HZ)` computed in unsigned 64-bit arithmetic with truncating
division: step by step over the naturals, and as the residue modulo `2 ^ 64` of
the integer expression. -/
theorem sched_clock_fallback (rdtsc : Nat) (data : cyc2ns_data)
    (jiffies_64 INITIAL_JIFFIES HZ : Nat)
    (hI : INITIAL_JIFFIES < 2 ^ 64) (hHZ : 0 < HZ) :
    __sched_clock false rdtsc data jiffies_64 INITIAL_JIFFIES HZ
        = (((jiffies_64 + 2 ^ 64 - INITIAL_JIFFIES) % 2 ^ 64) * (1000000000 / HZ)) % 2 ^ 64 ∧
    ((__sched_clock false rdtsc data jiffies_64 INITIAL_JIFFIES HZ : Nat) : Int)
        = (((jiffies_64 : Int) - (INITIAL_JIFFIES : Int)) * ((1000000000 / HZ : Nat) : Int))
            % 2 ^ 64 := by
  have _ := hHZ
  refine ⟨by simp [__sched_clock], ?_⟩
  simp only [__sched_clock, Bool.false_eq_true, if_false]
  have hcast : ((jiffies_64 + 2 ^ 64 - INITIAL_JIFFIES : Nat) : Int)
      = ((jiffies_64 : Int) - (INITIAL_JIFFIES : Int)) + 2 ^ 64 := by omega
  have hpow : ((2 ^ 64 : Nat) : Int) = 2 ^ 64 := by norm_num
  rw [Int.natCast_mod, Nat.cast_mul, Int.natCast_mod, hcast, hpow, Int.mul_emod, Int.emod_emod,
    ← Int.mul_emod, Int.add_mul, Int.add_mul_emod_self_left]

/-- Witness of C4: `HZ = 1000`, `INITIAL_JIFFIES = 0`, `jiffies_64 = 100` gives
100000000 ns. -/
theorem sched_clock_fallback_witness :
    __sched_clock false 0 ⟨0, 0, 0⟩ 100 0 1000 = 100000000 ∧
    ((__sched_clock false 0 ⟨0, 0, 0⟩ 100 0 1000 : Nat) : Int)
      = (((100 : Nat) : Int) - ((0 : Nat) : Int)) * ((1000000000 / 1000 : Nat) : Int) % 2 ^ 64 :=
  ⟨by decide, (sched_clock_fallback 0 ⟨0, 0, 0⟩ 100 0 1000 (by decide) (by decide)).2⟩

/-- C6: on the hardware path `__sched_clock` is `cycles_2_ns` of the counter
value under the record read, whatever the tick counter, the initial tick value
and the tick rate are; on the fallback path its result is the same for every
counter value and every record. -/
theorem sched_clock_path_selection (rdtsc : Nat) (data : cyc2ns_data)
    (jiffies_64 INITIAL_JIFFIES HZ : Nat) :
    __sched_clock true rdtsc data jiffies_64 INITIAL_JIFFIES HZ = cycles_2_ns data rdtsc ∧
    (∀ j I hz : Nat, __sched_clock true rdtsc data j I hz
        = __sched_clock true rdtsc data jiffies_64 INITIAL_JIFFIES HZ) ∧
    (∀ (tsc : Nat) (d : cyc2ns_data), __sched_clock false tsc d jiffies_64 INITIAL_JIFFIES HZ
        = __sched_clock false rdtsc data jiffies_64 INITIAL_JIFFIES HZ) := by
  refine ⟨?_, ?_, ?_⟩
  · simp [__sched_clock]
  · intro j I hz
    simp [__sched_clock]
  · intro tsc d
    simp [__sched_clock]

/-! ## Overflow -/

/-- Counterexample to C5 as stated: with shift `CYC2NS_SCALE_FACTOR`, multiplier
`2 ^ 32 - 1`, offset 0 and `2 ^ 64 - 1` cycles the conversion returns
18428729675195875328 while the unbounded value is 77371252437321868667518976. -/
theorem cycles_2_ns_wraps_at_scale_factor :
    cycles_2_ns { cyc2ns_mul := 2 ^ 32 - 1, cyc2ns_shift := CYC2NS_SCALE_FACTOR,
                  cyc2ns_offset := 0 } (2 ^ 64 - 1) = 18428729675195875328 ∧
    0 + (2 ^ 64 - 1) * (2 ^ 32 - 1) / 2 ^ CYC2NS_SCALE_FACTOR = 77371252437321868667518976 ∧
    ¬ (cycles_2_ns { cyc2ns_mul := 2 ^ 32 - 1, cyc2ns_shift := CYC2NS_SCALE_FACTOR,
                     cyc2ns_offset := 0 } (2 ^ 64 - 1)
        = 0 + (2 ^ 64 - 1) * (2 ^ 32 - 1) / 2 ^ CYC2NS_SCALE_FACTOR) := by
  decide

/-- C5 (amended): with shift `CYC2NS_SCALE_FACTOR`, for every cycle count,
multiplier and offset, the conversion returns the unbounded value
`offset + floor(cyc * mul / 2 ^ 10)` reduced modulo `2 ^ 64`, and this is the
unbounded value itself exactly when the unbounded value is below `2 ^ 64`. -/
theorem cycles_2_ns_scale_factor_wrap (mul offset cyc : Nat) :
    cycles_2_ns { cyc2ns_mul := mul, cyc2ns_shift := CYC2NS_SCALE_FACTOR,
                  cyc2ns_offset := offset } cyc
        = (offset + cyc * mul / 2 ^ CYC2NS_SCALE_FACTOR) % 2 ^ 64 ∧
    (cycles_2_ns { cyc2ns_mul := mul, cyc2ns_shift := CYC2NS_SCALE_FACTOR,
                   cyc2ns_offset := offset } cyc
        = offset + cyc * mul / 2 ^ CYC2NS_SCALE_FACTOR
      ↔ offset + cyc * mul / 2 ^ CYC2NS_SCALE_FACTOR < 2 ^ 64) := by
  refine ⟨cycles_2_ns_mod _ cyc, ?_⟩
  rw [cycles_2_ns_mod]
  constructor
  · intro h
    rw [← h]
    exact Nat.mod_lt _ (by norm_num)
  · intro h
    exact Nat.mod_eq_of_lt h

/-- C9: inside the envelope `cyc * mul < 2 ^ (64 + shift)` and
`offset + floor(cyc * mul / 2 ^ shift) < 2 ^ 64` the conversion is exactly the
natural-number value; at shift 10, multiplier `2 ^ 32 - 1`, `2 ^ 64 - 1` cycles
and offset 0, outside the envelope, it differs from it. -/
theorem cycles_2_ns_envelope :
    (∀ (mul shift offset cyc : Nat), shift < 64 → cyc * mul < 2 ^ (64 + shift) →
      offset + cyc * mul / 2 ^ shift < 2 ^ 64 →
      cycles_2_ns { cyc2ns_mul := mul, cyc2ns_shift := shift, cyc2ns_offset := offset } cyc
        = offset + cyc * mul / 2 ^ shift) ∧
    cycles_2_ns { cyc2ns_mul := 2 ^ 32 - 1, cyc2ns_shift := 10, cyc2ns_offset := 0 } (2 ^ 64 - 1)
      ≠ 0 + (2 ^ 64 - 1) * (2 ^ 32 - 1) / 2 ^ 10 :=
  ⟨fun mul shift offset cyc _ _ h => cycles_2_ns_nowrap ⟨mul, shift, offset⟩ cyc h, by decide⟩

/-- Witness of C9: the record `(512, 10, 0)` at 2000000000 cycles lies inside
the envelope. -/
theorem cycles_2_ns_envelope_witness :
    (10 : Nat) < 64 ∧ 2000000000 * 512 < 2 ^ (64 + 10) ∧
    0 + 2000000000 * 512 / 2 ^ 10 < 2 ^ 64 ∧
    cycles_2_ns { cyc2ns_mul := 512, cyc2ns_shift := 10, cyc2ns_offset := 0 } 2000000000
      = 0 + 2000000000 * 512 / 2 ^ 10 :=
  ⟨by decide, by decide, by decide,
    cycles_2_ns_envelope.1 512 10 0 2000000000 (by decide) (by decide) (by decide)⟩

theorem scaled_diff (mul shift c1 c2 : Nat) (h : c1 ≤ c2) :
    c2 * mul / 2 ^ shift - c1 * mul / 2 ^ shift = (c2 - c1) * mul / 2 ^ shift ∨
    c2 * mul / 2 ^ shift - c1 * mul / 2 ^ shift = (c2 - c1) * mul / 2 ^ shift + 1 := by
  obtain ⟨d, rfl⟩ := Nat.exists_eq_add_of_le h
  have hpos : 0 < 2 ^ shift := Nat.two_pow_pos shift
  rw [Nat.add_sub_cancel_left, Nat.add_mul, Nat.add_div hpos]
  generalize c1 * mul / 2 ^ shift = a
  generalize d * mul / 2 ^ shift = b
  split_ifs <;> omega

/-- C10: for a fixed multiplier and shift and cycle counts `c1 <= c2` inside the
no-wrap envelope, the elapsed time between `c1` and `c2` is the same under any
two offsets and is `floor((c2 - c1) * mul / 2 ^ shift)` or that value plus 1. -/
theorem cycles_2_ns_rate (mul shift offset offset' c1 c2 : Nat) (h : c1 ≤ c2)
    (hfit : offset + c2 * mul / 2 ^ shift < 2 ^ 64)
    (hfit' : offset' + c2 * mul / 2 ^ shift < 2 ^ 64) :
    cycles_2_ns ⟨mul, shift, offset⟩ c1 ≤ cycles_2_ns ⟨mul, shift, offset⟩ c2 ∧
    cycles_2_ns ⟨mul, shift, offset⟩ c2 - cycles_2_ns ⟨mul, shift, offset⟩ c1
      = cycles_2_ns ⟨mul, shift, offset'⟩ c2 - cycles_2_ns ⟨mul, shift, offset'⟩ c1 ∧
    (cycles_2_ns ⟨mul, shift, offset⟩ c2 - cycles_2_ns ⟨mul, shift, offset⟩ c1
        = (c2 - c1) * mul / 2 ^ shift ∨
      cycles_2_ns ⟨mul, shift, offset⟩ c2 - cycles_2_ns ⟨mul, shift, offset⟩ c1
        = (c2 - c1) * mul / 2 ^ shift + 1) := by
  have hq := scaled_mono mul shift h
  have e2 := cycles_2_ns_nowrap ⟨mul, shift, offset⟩ c2 hfit
  have e1 := cycles_2_ns_nowrap ⟨mul, shift, offset⟩ c1 (lt_of_le_of_lt (Nat.add_le_add_left hq _) hfit)
  have e2' := cycles_2_ns_nowrap ⟨mul, shift, offset'⟩ c2 hfit'
  have e1' := cycles_2_ns_nowrap ⟨mul, shift, offset'⟩ c1
    (lt_of_le_of_lt (Nat.add_le_add_left hq _) hfit')
  simp only at e1 e2 e1' e2'
  rw [e1, e2, e1', e2']
  have hd := scaled_diff mul shift c1 c2 h
  refine ⟨by omega, by omega, ?_⟩
  rcases hd with hd | hd
  · left; omega
  · right; omega

/-- Witness of C10: multiplier 341, shift 10, cycles 1 and 4, offsets 0 and 5:
the elapsed time is 1 ns, one more than `floor(3 * 341 / 1024) = 0`. -/
theorem cycles_2_ns_rate_witness :
    cycles_2_ns ⟨341, 10, 0⟩ 4 - cycles_2_ns ⟨341, 10, 0⟩ 1 = 1 ∧
    (4 - 1) * 341 / 2 ^ 10 = 0 ∧
    cycles_2_ns ⟨341, 10, 0⟩ 4 - cycles_2_ns ⟨341, 10, 0⟩ 1
      = cycles_2_ns ⟨341, 10, 5⟩ 4 - cycles_2_ns ⟨341, 10, 5⟩ 1 :=
  ⟨by decide, by decide,
    (cycles_2_ns_rate 341 10 0 5 1 4 (by decide) (by decide) (by decide)).2.1⟩

/-! ## The calibration store -/

theorem setData_seq (c : cyc2ns) (idx : Nat) (d : cyc2ns_data) :
    (c.setData idx d).seq = c.seq := by
  unfold cyc2ns.setData
  split <;> rfl

theorem publish_upto_seq (c : cyc2ns) (r : cyc2ns_data) (k : Nat) :
    (publish_upto c r k).seq
      = if k = 0 then c.seq
        else if k < 5 then (c.seq + 1) % 2 ^ 32
        else ((c.seq + 1) % 2 ^ 32 + 1) % 2 ^ 32 := by
  match k with
  | 0 => simp [publish_upto]
  | 1 => simp [publish_upto, seq_inc]
  | 2 => simp [publish_upto, seq_inc, setData_seq]
  | 3 => simp [publish_upto, seq_inc, setData_seq]
  | 4 => simp [publish_upto, seq_inc, setData_seq]
  | n + 5 => simp [publish_upto, seq_inc, setData_seq]

theorem publish_upto_of_le (c : cyc2ns) (r : cyc2ns_data) {k : Nat} (h : 5 ≤ k) :
    publish_upto c r k = publish c r := by
  obtain ⟨n, rfl⟩ := Nat.exists_eq_add_of_le h
  rw [Nat.add_comm]
  rfl

theorem publish_data_zero (c : cyc2ns) (r : cyc2ns_data) (h : c.seq % 2 = 0) :
    (publish c r).data 0 = r := by
  have hidx : 1 - (seq_inc c).seq % 2 = 0 := by
    simp only [seq_inc]
    omega
  simp only [publish, publish_upto, hidx]
  simp [seq_inc, cyc2ns.setData, cyc2ns.data]

theorem publish_seq_even (c : cyc2ns) (r : cyc2ns_data) (h : c.seq % 2 = 0) :
    (publish c r).seq % 2 = 0 := by
  unfold publish
  rw [publish_upto_seq]
  simp only [show ¬ (5 = 0) by decide, show ¬ (5 < 5) by decide, if_false]
  omega

theorem read_once_quiescent (c : cyc2ns) (h : c.seq % 2 = 0) :
    read_once c c c c c = some (c.data 0) := by
  unfold read_once
  simp [h]

/-- One pass of a reader interleaved with one `publish c r` that validates
returns the record the store held before the writer started or the record `r`. -/
theorem read_once_publish (c : cyc2ns) (r : cyc2ns_data) (h : c.seq % 2 = 0)
    (p : ReadPass) (hord : p.ordered) (d : cyc2ns_data)
    (hd : read_once (publish_upto c r p.t1) (publish_upto c r p.t2) (publish_upto c r p.t3)
        (publish_upto c r p.t4) (publish_upto c r p.t5) = some d) :
    d = c.data 0 ∨ d = r := by
  obtain ⟨h12, h23, h34, h45⟩ := hord
  unfold read_once at hd
  simp only at hd
  split_ifs at hd with hc
  push_neg at hc
  obtain ⟨h5, hev⟩ := hc
  have hseq1 := publish_upto_seq c r p.t1
  have hseq5 := publish_upto_seq c r p.t5
  have hidx : (publish_upto c r p.t1).seq % 2 = 0 := by omega
  rw [hidx] at hd
  by_cases h1 : p.t1 = 0
  · have h5z : p.t5 = 0 := by
      by_contra hne
      rw [if_pos h1] at hseq1
      rw [if_neg hne] at hseq5
      split_ifs at hseq5 <;> omega
    have h2z : p.t2 = 0 := by omega
    have h3z : p.t3 = 0 := by omega
    have h4z : p.t4 = 0 := by omega
    rw [h2z, h3z, h4z] at hd
    left
    simp only [publish_upto, Option.some.injEq] at hd
    exact hd.symm
  · have h1ge : 5 ≤ p.t1 := by
      by_contra hlt
      rw [if_neg h1, if_pos (by omega)] at hseq1
      omega
    rw [publish_upto_of_le c r (show 5 ≤ p.t2 by omega),
      publish_upto_of_le c r (show 5 ≤ p.t3 by omega),
      publish_upto_of_le c r (show 5 ≤ p.t4 by omega), publish_data_zero c r h] at hd
    right
    simp only [Option.some.injEq] at hd
    exact hd.symm

/-- On a store at rest the recalibration reads the record in entry 0 and
publishes the record built from it. -/
theorem recalibrate_at_rest (fuel : Nat) (c : cyc2ns) (f2 t0 : Nat) (h : c.seq % 2 = 0) :
    recalibrate (fuel + 1) c f2 t0
      = some (publish c (recalibrate_record (c.data 0) f2 t0)) := by
  unfold recalibrate cyc2ns_read_begin
  rw [read_once_quiescent c h]

/-- C7: for every store with an even sequence counter and every record `r`, the
writer makes the counter odd after its first step and even again when it
completes, and an uninterrupted `cyc2ns_read_begin` that follows returns `r`
in its first pass. -/
theorem publish_then_read (c : cyc2ns) (r : cyc2ns_data) (h : c.seq % 2 = 0) :
    (publish_upto c r 1).seq % 2 = 1 ∧
    (publish c r).seq % 2 = 0 ∧
    ∀ fuel : Nat, cyc2ns_read_begin (fuel + 1) (publish c r) = some r := by
  refine ⟨?_, publish_seq_even c r h, ?_⟩
  · simp only [publish_upto, seq_inc]
    omega
  · intro fuel
    unfold cyc2ns_read_begin
    rw [read_once_quiescent _ (publish_seq_even c r h), publish_data_zero c r h]

/-- Witness of C7: publishing `(7, 8, 9)` into a store at counter 8. -/
theorem publish_then_read_witness :
    (8 : Nat) % 2 = 0 ∧
    (publish ⟨⟨1, 2, 3⟩, ⟨4, 5, 6⟩, 8⟩ ⟨7, 8, 9⟩).seq = 10 ∧
    cyc2ns_read_begin 1 (publish ⟨⟨1, 2, 3⟩, ⟨4, 5, 6⟩, 8⟩ ⟨7, 8, 9⟩) = some ⟨7, 8, 9⟩ :=
  ⟨by decide, by decide,
    (publish_then_read ⟨⟨1, 2, 3⟩, ⟨4, 5, 6⟩, 8⟩ ⟨7, 8, 9⟩ (by decide)).2.2 0⟩

/-- C8: for every store with an even sequence counter, every record `r` and
every reader whose passes are interleaved in any way with the stores of one
`publish c r`, a record the reader returns is the record the store held before
the writer started or the record `r`, never a mixture of their fields. -/
theorem no_torn_reads (c : cyc2ns) (r : cyc2ns_data) (h : c.seq % 2 = 0)
    (passes : List ReadPass) (hord : ∀ p ∈ passes, p.ordered) (d : cyc2ns_data)
    (hd : read_begin_interleaved c r passes = some d) :
    d = c.data 0 ∨ d = r := by
  induction passes with
  | nil => simp [read_begin_interleaved] at hd
  | cons p rest ih =>
    unfold read_begin_interleaved at hd
    split at hd
    · next d' hp =>
      simp only [Option.some.injEq] at hd
      subst hd
      exact read_once_publish c r h p (hord p (List.mem_cons_self p rest)) _ hp
    · exact ih (fun q hq => hord q (List.mem_cons_of_mem p hq)) hd

/-- Witness of C8: a reader whose first pass straddles the whole writer and
fails, and whose second pass runs after the writer and returns `(7, 8, 9)`. -/
theorem no_torn_reads_witness :
    read_begin_interleaved ⟨⟨1, 2, 3⟩, ⟨4, 5, 6⟩, 8⟩ ⟨7, 8, 9⟩
        [⟨0, 1, 2, 4, 5⟩, ⟨5, 5, 5, 5, 5⟩] = some ⟨7, 8, 9⟩ ∧
    ((⟨7, 8, 9⟩ : cyc2ns_data) = cyc2ns.data ⟨⟨1, 2, 3⟩, ⟨4, 5, 6⟩, 8⟩ 0 ∨
      (⟨7, 8, 9⟩ : cyc2ns_data) = ⟨7, 8, 9⟩) :=
  ⟨by decide,
    no_torn_reads ⟨⟨1, 2, 3⟩, ⟨4, 5, 6⟩, 8⟩ ⟨7, 8, 9⟩ (by decide)
      [⟨0, 1, 2, 4, 5⟩, ⟨5, 5, 5, 5, 5⟩] (by decide) ⟨7, 8, 9⟩ (by decide)⟩

end Timer
